import Mathlib

/-!
# Verification of the `radiant` Radiance HDR decoder (`src/lib.rs`)

Shallow embedding of the decoder's core: the RGBE→float codec, the two
run-length scanline decoders, the per-scanline dispatcher, and `load`.

Modelling conventions:
* Byte streams are `List Nat`; every read site reduces the byte mod 256,
  mirroring the fact that Rust's reader yields `u8` values.
* `f32` values are modelled as exact rationals (`ℚ`), with every arithmetic
  operation of the source followed by IEEE round-to-nearest-even onto the
  32-bit single-precision grid (`f32round`).  Overflow to infinity is not
  modelled; no computation reachable from the claims leaves the finite range.
* Rust panics (only possible at `scanline[0]` on an empty scanline, and at
  `Image::pixel` out of bounds) are modelled explicitly: `Outcome.panicked`
  for the decoder pipeline, `Option` for `Image.pixel`.
* The buffered reader's `fill_buf` is modelled as delivering one byte per
  chunk.  The source loops over chunks of arbitrary size; §5 of the spec notes
  a byte-at-a-time source is logically equivalent, and the chunk size only
  affects how a literal run is split, not the decoded bytes or the error.
-/

/-- The decoded R, G and B value of a pixel (`struct RGB`); each field is the
exact rational value of the `f32` channel. -/
structure RGB where
  r : ℚ
  g : ℚ
  b : ℚ
deriving DecidableEq, Repr

/-- A raw 4-byte encoded pixel (`struct RGBE`); fields are byte values. -/
structure RGBE where
  r : Nat
  g : Nat
  b : Nat
  e : Nat
deriving DecidableEq, Repr

/-- `enum LoadError`.  The `IoError` payloads of `Io`/`Eof` carry no
information the decoder ever inspects, so they are dropped. -/
inductive LoadError where
  | io
  | eof
  | fileFormat
  | rle
deriving DecidableEq, Repr

/-! ## The `f32` model -/

/-- Round a rational to the nearest integer, ties to even. -/
def rnEven (x : ℚ) : ℤ :=
  if x - ⌊x⌋ < 1 / 2 then ⌊x⌋
  else if 1 / 2 < x - ⌊x⌋ then ⌊x⌋ + 1
  else if 2 ∣ ⌊x⌋ then ⌊x⌋ else ⌊x⌋ + 1

/-- Round an exact rational onto the IEEE binary32 grid, to nearest, ties to
even: normal numbers carry a 24-bit significand scaled by `2^(e-23)` for
exponent `e ∈ [-126, 127]`; below `2^(-126)` the grid is the fixed subnormal
grid `2^(-149)·ℤ`.  Values that would overflow to infinity are rounded on the
normal grid instead; nothing reachable from the claims leaves the finite
range. -/
def f32round (q : ℚ) : ℚ :=
  if q = 0 then 0
  else
    let e : ℤ := Int.log 2 |q|
    let scale : ℤ := if e < -126 then -149 else e - 23
    let sign : ℚ := if q < 0 then -1 else 1
    sign * (rnEven (|q| * 2 ^ (-scale)) : ℚ) * 2 ^ scale

/-- `a * b` in `f32`. -/
def f32mul (a b : ℚ) : ℚ := f32round (a * b)

/-- `a / b` in `f32` (the divisor used by the source is always the constant
`255`, so the division-by-zero case is unreachable). -/
def f32div (a b : ℚ) : ℚ := f32round (a / b)

/-- `2_f32.powi(expo)`.  For base two and `expo ∈ [-149, 127]` the exact value
`2^expo` is representable in `f32` and repeated squaring computes it exactly,
so the model returns the exact power.  (The source only reaches
`expo ∈ [-128, 127]`.) -/
def f32powi2 (expo : ℤ) : ℚ := (2 : ℚ) ^ expo

/-- `RGB::apply_exposure`: `expo = e - 128`, `d = 2^expo / 255`, and each
channel is multiplied by the shared `d`. -/
def RGB.apply_exposure (p : RGB) (e : Nat) : RGB :=
  let expo : ℤ := (e : ℤ) - 128
  let d : ℚ := f32div (f32powi2 expo) 255
  ⟨f32mul p.r d, f32mul p.g d, f32mul p.b d⟩

/-- `impl From<RGBE> for RGB`: widen the three mantissa bytes to float
(exact, since `u8 → f32` is exact) and apply the shared exponent. -/
def RGB.ofRGBE (q : RGBE) : RGB :=
  RGB.apply_exposure ⟨(q.r : ℚ), (q.g : ℚ), (q.b : ℚ)⟩ q.e

/-! ## Marker classification -/

/-- `RGBE::is_rle_marker`: `r == 1 && g == 1 && b == 1`. -/
def RGBE.is_rle_marker (p : RGBE) : Prop := p.r = 1 ∧ p.g = 1 ∧ p.b = 1

instance (p : RGBE) : Decidable p.is_rle_marker := by
  unfold RGBE.is_rle_marker; infer_instance

/-- `RGBE::is_new_decrunch_marker`: `r == 2 && g == 2 && b & 128 == 0`.
For a byte `b < 256`, `b & 128 == 0` is exactly `b < 128`. -/
def RGBE.is_new_decrunch_marker (p : RGBE) : Prop := p.r = 2 ∧ p.g = 2 ∧ p.b < 128

instance (p : RGBE) : Decidable p.is_new_decrunch_marker := by
  unfold RGBE.is_new_decrunch_marker; infer_instance

/-! ## Old-format scanline decoder -/

/-- The count computation of `old_decrunch`:
`usize::checked_shl(1, l_shift).and_then(|f| usize::from(e).checked_mul(f))`.
On 64-bit `usize`, `checked_shl` is `None` iff the shift amount is ≥ 64
(regardless of the shifted value), and `checked_mul` is `None` iff the
product does not fit in 64 bits. -/
def checked_count (e lshift : Nat) : Option Nat :=
  if lshift < 64 then
    if e * 2 ^ lshift < 2 ^ 64 then some (e * 2 ^ lshift) else none
  else none

/-- `old_decrunch`.  The source advances a mutable window over the scanline;
here the window is the `scanline` argument and the decoded prefix is
re-assembled on the way out.  Index 0 of the window is the most recently
decoded pixel (the dispatcher fills slot 0 before the first call).  The loop
`while scanline.len() > 1` reads one RGBE per iteration: an RLE marker
replicates the previous pixel `count` times (`count` must fit in the window,
else `Rle`) and bumps `l_shift` by 8; any other pixel is converted into the
next slot and resets `l_shift` to 0. -/
def old_decrunch : (stream : List Nat) → (lshift : Nat) → (scanline : List RGB) →
    Except LoadError (List RGB × List Nat)
  | stream, _, [] => .ok ([], stream)
  | stream, _, [p] => .ok ([p], stream)
  | stream, lshift, p0 :: p1 :: rest =>
    match stream with
    | r :: g :: b :: e :: s1 =>
      if (⟨r % 256, g % 256, b % 256, e % 256⟩ : RGBE).is_rle_marker then
        match checked_count (e % 256) lshift with
        | none => .error .rle
        | some count =>
          -- scanline.get_mut(1..=count): requires count + 1 ≤ window length
          if count ≤ (p1 :: rest).length then
            match old_decrunch s1 (lshift + 8) (p0 :: (p1 :: rest).drop count) with
            | .ok (tail, s2) => .ok (List.replicate count p0 ++ tail, s2)
            | .error err => .error err
          else .error .rle
      else
        match old_decrunch s1 0 (RGB.ofRGBE ⟨r % 256, g % 256, b % 256, e % 256⟩ :: rest) with
        | .ok (tail, s2) => .ok (p0 :: tail, s2)
        | .error err => .error err
    | _ => .error .eof

/-! ## New-format scanline decoder -/

/-- The `decrunch_channel` closure of `decrunch`: one pass of the new-format
decoder over the whole scanline, writing one plane through `mutate`.  The
source is monomorphic at `RGB` and receives the plane as a
`fn(&mut RGB, u8)`; the pass never inspects pixels, so the embedding is
generic in the pixel type (this is also what lets the spec-side raw-plane
variant below reuse the very same pass).

`bytesLeft` is the number of bytes still owed to an in-progress literal
("non-run") segment; the source expresses this as an inner `while` loop over
`fill_buf` chunks, modelled here with one-byte chunks (`bytesLeft = 0` means
the pass is at a control byte).  Control byte `> 128`: a run of
`count = code & 127` copies of one data byte (bounds-checked against the
remaining window *before* the data byte is read).  Otherwise the control byte
is the literal count. -/
def decrunch_channel {α : Type} (mutate : α → Nat → α) :
    (bytesLeft : Nat) → (stream : List Nat) → (scanline : List α) →
    Except LoadError (List α × List Nat)
  | bl + 1, stream, scanline =>
    match stream with
    | [] => .error .eof                 -- fill_buf returned an empty buffer
    | v :: s1 =>
      match scanline with
      | [] => .error .rle               -- scanline.get_mut(..count) out of range
      | p :: ps =>
        match decrunch_channel mutate bl s1 ps with
        | .ok (tail, s2) => .ok (mutate p (v % 256) :: tail, s2)
        | .error err => .error err
  | 0, stream, scanline =>
    match scanline with
    | [] => .ok ([], stream)            -- while !scanline.is_empty()
    | p :: ps =>
      match stream with
      | [] => .error .eof               -- read_byte for the control byte
      | c :: s1 =>
        -- code = c as usize; a run's count is code & 127, i.e. c % 256 % 128
        if 128 < c % 256 then
          if c % 256 % 128 ≤ (p :: ps).length then
            match s1 with
            | [] => .error .eof         -- read_byte for the run value
            | v :: s2 =>
              match decrunch_channel mutate 0 s2 ((p :: ps).drop (c % 256 % 128)) with
              | .ok (tail, s3) =>
                .ok (((p :: ps).take (c % 256 % 128)).map
                      (fun q => mutate q (v % 256)) ++ tail, s3)
              | .error err => .error err
          else .error .rle
        else
          decrunch_channel mutate (c % 256) s1 (p :: ps)

/-- The new-format body of `decrunch`: four sequential passes over the whole
scanline, in the fixed order red, green, blue, exponent; the fourth pass
applies `RGB::apply_exposure` directly with the decoded exponent byte. -/
def new_decrunch (stream : List Nat) (scanline : List RGB) :
    Except LoadError (List RGB × List Nat) :=
  match decrunch_channel (fun p v => { p with r := (v : ℚ) }) 0 stream scanline with
  | .error err => .error err
  | .ok (sc1, s1) =>
    match decrunch_channel (fun p v => { p with g := (v : ℚ) }) 0 s1 sc1 with
    | .error err => .error err
    | .ok (sc2, s2) =>
      match decrunch_channel (fun p v => { p with b := (v : ℚ) }) 0 s2 sc2 with
      | .error err => .error err
      | .ok (sc3, s3) => decrunch_channel (fun p v => p.apply_exposure v) 0 s3 sc3

/-! ## Dispatcher, image assembly, `load` -/

/-- Result of a computation that can also panic (Rust's `panic!` aborts; the
only reachable panic sites in the source are slice indexing). -/
inductive Outcome (α : Type) where
  | ok : α → Outcome α
  | err : LoadError → Outcome α
  | panicked : Outcome α
deriving DecidableEq

/-- Lift an `Except` result (code that cannot panic) into `Outcome`. -/
def liftE {α : Type} : Except LoadError α → Outcome α
  | .ok a => .ok a
  | .error e => .err e

/-- `decrunch`: the per-scanline dispatcher.  Reads one RGBE; if the scanline
length is within `[8, 0x7fff]` and the pixel is the new-format marker, the
marker is consumed (not stored) and the new-format decoder runs on the whole
buffer; otherwise the pixel's converted value lands in slot 0 and the
old-format decoder fills the rest.  `scanline[0]` panics when the scanline is
empty (unreachable from `load`, which skips zero-area images). -/
def decrunch (stream : List Nat) (scanline : List RGB) :
    Outcome (List RGB × List Nat) :=
  match stream with
  | r :: g :: b :: e :: s1 =>
    if ¬(8 ≤ scanline.length ∧ scanline.length ≤ 0x7fff) ∨
        ¬(⟨r % 256, g % 256, b % 256, e % 256⟩ : RGBE).is_new_decrunch_marker then
      match scanline with
      | [] => .panicked
      | _ :: rest =>
        liftE (old_decrunch s1 0 (RGB.ofRGBE ⟨r % 256, g % 256, b % 256, e % 256⟩ :: rest))
    else
      liftE (new_decrunch s1 scanline)
  | _ => .err .eof

/-- A decoded image (`struct Image`). -/
structure Image where
  width : Nat
  height : Nat
  data : List RGB
deriving DecidableEq

/-- `Image::pixel_offset`. -/
def Image.pixel_offset (img : Image) (x y : Nat) : Nat := img.width * y + x

/-- `Image::pixel`: an unchecked linear lookup, `none` when the slice index
panics. -/
def Image.pixel (img : Image) (x y : Nat) : Option RGB :=
  img.data.get? (img.pixel_offset x y)

/-- The row loop of `load`: `for row in 0..height` hands the slice
`[row*width, row*width + width)` to `decrunch`.  The mutable buffer is
modelled by splitting off `width` pixels per row and re-assembling. -/
def decode_rows (width : Nat) : (rows : Nat) → (stream : List Nat) →
    (data : List RGB) → Outcome (List RGB × List Nat)
  | 0, stream, data => .ok (data, stream)
  | rows + 1, stream, data =>
    match decrunch stream (data.take width) with
    | .ok (row, s1) =>
      match decode_rows width rows s1 (data.drop width) with
      | .ok (tail, s2) => .ok (row ++ tail, s2)
      | .err e => .err e
      | .panicked => .panicked
    | .err e => .err e
    | .panicked => .panicked

/-- The body of `load` from the point where the header has produced
`(width, height)`: overflow-check `width * height`, allocate a zeroed buffer,
decode every row (only when the buffer is nonempty), return the `Image`. -/
def load_scanlines (width height : Nat) (stream : List Nat) : Outcome Image :=
  let length := width * height
  let data : List RGB := List.replicate length ⟨0, 0, 0⟩
  if 0 < length then
    match decode_rows width height stream data with
    | .ok (data2, _) => .ok ⟨width, height, data2⟩
    | .err e => .err e
    | .panicked => .panicked
  else .ok ⟨width, height, data⟩

/-- The 10-byte magic signature `#?RADIANCE`. -/
def MAGIC : List Nat := [35, 63, 82, 65, 68, 73, 65, 78, 67, 69]

/-- Modelled from the spec: the repository declares `mod dim_parser;` but the
module's source is not under `src/`, so the header parser is the spec's §1
black box — *given a stream positioned immediately after the magic signature,
return `(width, height)` and the stream positioned at the first byte of pixel
data, or fail*.  `load` is parametrized by an arbitrary function of this
contract's shape. -/
def ParseHeader : Type := List Nat → Except LoadError (Nat × Nat × List Nat)

/-- `load`: read and check the 10 magic bytes, run the header parser,
overflow-check `width.checked_mul(height)` (64-bit `usize`), then decode the
scanlines. -/
def load (parse_header : ParseHeader) (stream : List Nat) : Outcome Image :=
  if stream.length < 10 then .err .eof          -- read_exact on the magic
  else if (stream.take 10).map (· % 256) ≠ MAGIC then .err .fileFormat
  else
    match parse_header (stream.drop 10) with
    | .error e => .err e
    | .ok (width, height, rest) =>
      if width * height < 2 ^ 64 then
        load_scanlines width height rest
      else .err .fileFormat


/-! ## Claim-side definitions (spec renderings used to compare against the code) -/

/-- The count computation as claim C3 words it: `e << l_shift` evaluated in
unbounded width, failing only when the resulting *value* does not fit the
64-bit `usize`.  (The source additionally fails whenever the shift amount is
≥ 64, even for `e = 0`.) -/
def count_claimed (e lshift : Nat) : Option Nat :=
  if e * 2 ^ lshift < 2 ^ 64 then some (e * 2 ^ lshift) else none

/-- `old_decrunch` with claim C3's count computation substituted for the
source's; used solely to exhibit the input where the two differ. -/
def old_decrunch_claimed : (stream : List Nat) → (lshift : Nat) → (scanline : List RGB) →
    Except LoadError (List RGB × List Nat)
  | stream, _, [] => .ok ([], stream)
  | stream, _, [p] => .ok ([p], stream)
  | stream, lshift, p0 :: p1 :: rest =>
    match stream with
    | r :: g :: b :: e :: s1 =>
      if (⟨r % 256, g % 256, b % 256, e % 256⟩ : RGBE).is_rle_marker then
        match count_claimed (e % 256) lshift with
        | none => .error .rle
        | some count =>
          if count ≤ (p1 :: rest).length then
            match old_decrunch_claimed s1 (lshift + 8) (p0 :: (p1 :: rest).drop count) with
            | .ok (tail, s2) => .ok (List.replicate count p0 ++ tail, s2)
            | .error err => .error err
          else .error .rle
      else
        match old_decrunch_claimed s1 0 (RGB.ofRGBE ⟨r % 256, g % 256, b % 256, e % 256⟩ :: rest) with
        | .ok (tail, s2) => .ok (p0 :: tail, s2)
        | .error err => .error err
    | _ => .error .eof

/-- The new-format scanline decode as the spec words it (§4.4, §4.1): four
passes over a buffer of *raw byte planes*, in the fixed order red, green,
blue, exponent — the exponent pass stores raw exponent bytes — and, after all
four passes complete, the exposure conversion applied once per pixel from its
accumulated `(r,g,b,e)` bytes.  The per-pass protocol is shared with the
source (`decrunch_channel`); only the two-stage fill-then-convert structure
differs from the source's convert-during-fourth-pass. -/
def new_decrunch_raw (stream : List Nat) (raw : List RGBE) :
    Except LoadError (List RGBE × List Nat) :=
  match decrunch_channel (fun (q : RGBE) v => { q with r := v }) 0 stream raw with
  | .error err => .error err
  | .ok (sc1, s1) =>
    match decrunch_channel (fun q v => { q with g := v }) 0 s1 sc1 with
    | .error err => .error err
    | .ok (sc2, s2) =>
      match decrunch_channel (fun q v => { q with b := v }) 0 s2 sc2 with
      | .error err => .error err
      | .ok (sc3, s3) => decrunch_channel (fun q v => { q with e := v }) 0 s3 sc3

/-- The conversion stage the spec prescribes after the raw passes: once the
four planes are full, apply §4.1 once per pixel. -/
def new_decrunch_spec (stream : List Nat) (width : Nat) :
    Except LoadError (List RGB × List Nat) :=
  match new_decrunch_raw stream (List.replicate width ⟨0, 0, 0, 0⟩) with
  | .error err => .error err
  | .ok (raws, s) => .ok (raws.map RGB.ofRGBE, s)

/-- Relates the results of two channel passes run over pixel representations
linked pointwise by `S`: both fail with the same error, or both succeed with
the same remaining stream and pointwise-`S` scanlines. -/
def ExceptRel {α β : Type} (S : α → β → Prop) :
    Except LoadError (List α × List Nat) → Except LoadError (List β × List Nat) → Prop
  | .ok (o1, s1), .ok (o2, s2) => List.Forall₂ S o1 o2 ∧ s1 = s2
  | .error e1, .error e2 => e1 = e2
  | _, _ => False

/-- A trivial header parser satisfying the §1 black-box contract, used to
instantiate `load`'s parser parameter in witnesses: consumes nothing and
reports the given dimensions. -/
def ph_const (w h : Nat) : ParseHeader := fun s => .ok (w, h, s)

/-! ## Length preservation: no decoder ever changes the scanline's length -/

theorem decrunch_channel_length {α : Type} (m : α → Nat → α) (bl : Nat) (s : List Nat)
    (sc : List α) : ∀ out s2, decrunch_channel m bl s sc = .ok (out, s2) →
    out.length = sc.length := by
  induction bl, s, sc using decrunch_channel.induct m <;> intro out s2 h <;>
    (try simp only [decrunch_channel] at h)
  case case1 => exact absurd h (by simp)
  case case2 => exact absurd h (by simp)
  case case3 b v s1 p ps t s2' heq ih =>
    rw [heq] at h
    obtain ⟨h1, h2⟩ := by simpa using h
    simp [← h1, ih _ _ heq]
  case case4 b v s1 p ps e heq ih =>
    rw [heq] at h; simp at h
  case case5 s' =>
    obtain ⟨h1, h2⟩ := by simpa using h
    simp [← h1]
  case case6 p ps => exact absurd h (by simp)
  case case7 p ps v hc hcount => split at h <;> simp at h
  case case8 p ps v hc hcount v1 s1 tail s2' heq ih =>
    rw [if_pos hc, if_pos hcount] at h
    split at h
    · rename_i tail2 s3 heq2
      simp only [Except.ok.injEq, Prod.mk.injEq] at h
      obtain ⟨h1, h2⟩ := h
      have hl := congrArg List.length h1
      have ht := ih _ _ heq2
      simp only [List.length_append, List.length_map, List.length_take,
        List.length_drop, List.length_cons] at hl ht hcount ⊢
      omega
    · simp at h
  case case9 p ps v hc hcount v1 s1 err heq ih =>
    rw [if_pos hc, if_pos hcount] at h
    split at h
    · rename_i tail2 s3 heq2
      simp [heq] at heq2
    · simp at h
  case case10 p ps v s1 hc hncount =>
    rw [decrunch_channel.eq_def] at h
    simp only [] at h
    rw [if_pos hc, if_neg hncount] at h
    simp at h
  case case11 p ps v s1 hc ih =>
    rw [decrunch_channel.eq_def] at h
    simp only [] at h
    rw [if_neg hc] at h
    exact ih out s2 h

theorem old_decrunch_length (s : List Nat) (l : Nat) (sc : List RGB) :
    ∀ out s2, old_decrunch s l sc = .ok (out, s2) → out.length = sc.length := by
  induction s, l, sc using old_decrunch.induct <;> intro out s2 h <;>
    (try rw [old_decrunch.eq_def] at h) <;> (try simp only [] at h)
  case case1 stream x =>
    obtain ⟨h1, h2⟩ := by simpa using h
    simp [← h1]
  case case2 stream x p =>
    obtain ⟨h1, h2⟩ := by simpa using h
    simp [← h1]
  case case3 l p0 p1 rest r g b e s1 hm hcc =>
    rw [if_pos hm, hcc] at h
    simp at h
  case case4 l p0 p1 rest r g b e s1 hm count hcc hfit tail s2' heq ih =>
    rw [if_pos hm, hcc] at h
    simp only [] at h
    rw [if_pos hfit] at h
    split at h
    · rename_i tail2 s3 heq2
      simp only [Except.ok.injEq, Prod.mk.injEq] at h
      obtain ⟨h1, h2⟩ := h
      have hl := congrArg List.length h1
      have ht := ih _ _ heq2
      simp only [List.length_append, List.length_replicate, List.length_drop,
        List.length_cons] at hl ht hfit ⊢
      omega
    · simp at h
  case case5 l p0 p1 rest r g b e s1 hm count hcc hfit err heq ih =>
    rw [if_pos hm, hcc] at h
    simp only [] at h
    rw [if_pos hfit] at h
    split at h
    · rename_i tail2 s3 heq2
      simp [heq] at heq2
    · simp at h
  case case6 l p0 p1 rest r g b e s1 hm count hcc hnfit =>
    rw [if_pos hm, hcc] at h
    simp only [] at h
    rw [if_neg hnfit] at h
    simp at h
  case case7 l p0 p1 rest r g b e s1 hm tail s2' heq ih =>
    rw [if_neg hm] at h
    split at h
    · rename_i tail2 s3 heq2
      simp only [Except.ok.injEq, Prod.mk.injEq] at h
      obtain ⟨h1, h2⟩ := h
      have hl := congrArg List.length h1
      have ht := ih _ _ heq2
      simp only [List.length_cons] at hl ht ⊢
      omega
    · simp at h
  case case8 l p0 p1 rest r g b e s1 hm err heq ih =>
    rw [if_neg hm] at h
    split at h
    · rename_i tail2 s3 heq2
      simp [heq] at heq2
    · simp at h
  case case9 stream l p0 p1 rest hno =>
    rcases stream with _ | ⟨a, _ | ⟨b2, _ | ⟨c2, _ | ⟨d2, s1⟩⟩⟩⟩
    case cons.cons.cons.cons => exact (hno a b2 c2 d2 s1 rfl).elim
    all_goals simp at h

theorem new_decrunch_length (s : List Nat) (sc : List RGB) :
    ∀ out s2, new_decrunch s sc = .ok (out, s2) → out.length = sc.length := by
  intro out s2 h
  unfold new_decrunch at h
  cases h1 : decrunch_channel (fun p v => { p with r := (v : ℚ) }) 0 s sc with
  | error e => rw [h1] at h; simp at h
  | ok a =>
    obtain ⟨sc1, s1⟩ := a
    rw [h1] at h
    simp only [] at h
    cases h2 : decrunch_channel (fun p v => { p with g := (v : ℚ) }) 0 s1 sc1 with
    | error e => rw [h2] at h; simp at h
    | ok a2 =>
      obtain ⟨sc2, s2'⟩ := a2
      rw [h2] at h
      simp only [] at h
      cases h3 : decrunch_channel (fun p v => { p with b := (v : ℚ) }) 0 s2' sc2 with
      | error e => rw [h3] at h; simp at h
      | ok a3 =>
        obtain ⟨sc3, s3⟩ := a3
        rw [h3] at h
        simp only [] at h
        have l1 := decrunch_channel_length _ _ _ _ _ _ h1
        have l2 := decrunch_channel_length _ _ _ _ _ _ h2
        have l3 := decrunch_channel_length _ _ _ _ _ _ h3
        have l4 := decrunch_channel_length _ _ _ _ _ _ h
        omega

theorem decrunch_length (s : List Nat) (sc : List RGB) :
    ∀ out s2, decrunch s sc = .ok (out, s2) → out.length = sc.length := by
  intro out s2 h
  rcases s with _ | ⟨r, _ | ⟨g, _ | ⟨b, _ | ⟨e, s1⟩⟩⟩⟩ <;> (try (simp [decrunch] at h))
  split at h
  · -- old-format path
    rcases sc with _ | ⟨p0, rest⟩
    · simp at h
    · simp only [] at h
      cases ho : old_decrunch s1 0 (RGB.ofRGBE ⟨r % 256, g % 256, b % 256, e % 256⟩ :: rest) with
      | error e2 => rw [ho] at h; simp [liftE] at h
      | ok a =>
        obtain ⟨tail, s2'⟩ := a
        rw [ho] at h
        simp only [liftE, Outcome.ok.injEq, Prod.mk.injEq] at h
        obtain ⟨h1, h2⟩ := h
        have hl := congrArg List.length h1
        have ht := old_decrunch_length _ _ _ _ _ ho
        simp only [List.length_cons] at hl ht ⊢
        omega
  · -- new-format path
    cases hn : new_decrunch s1 sc with
    | error e2 => rw [hn] at h; simp [liftE] at h
    | ok a =>
      obtain ⟨tail, s2'⟩ := a
      rw [hn] at h
      simp only [liftE, Outcome.ok.injEq, Prod.mk.injEq] at h
      obtain ⟨h1, h2⟩ := h
      have ht := new_decrunch_length _ _ _ _ hn
      rw [← h1]
      exact ht

theorem decrunch_ne_panicked (s : List Nat) (sc : List RGB) (hsc : sc ≠ []) :
    decrunch s sc ≠ .panicked := by
  intro h
  rcases s with _ | ⟨r, _ | ⟨g, _ | ⟨b, _ | ⟨e, s1⟩⟩⟩⟩ <;> (try (simp [decrunch] at h))
  split at h
  · rcases sc with _ | ⟨p0, rest⟩
    · exact hsc rfl
    · simp only [] at h
      cases ho : old_decrunch s1 0 (RGB.ofRGBE ⟨r % 256, g % 256, b % 256, e % 256⟩ :: rest) <;>
        rw [ho] at h <;> simp [liftE] at h
  · cases hn : new_decrunch s1 sc <;> rw [hn] at h <;> simp [liftE] at h

theorem decode_rows_length (w : Nat) (rows : Nat) : ∀ s data out s2,
    decode_rows w rows s data = .ok (out, s2) → out.length = data.length := by
  induction rows with
  | zero =>
    intro s data out s2 h
    obtain ⟨h1, h2⟩ := by simpa [decode_rows] using h
    simp [← h1]
  | succ n ih =>
    intro s data out s2 h
    rw [decode_rows] at h
    cases hd : decrunch s (data.take w) with
    | err e => rw [hd] at h; simp at h
    | panicked => rw [hd] at h; simp at h
    | ok a =>
      obtain ⟨row, s1⟩ := a
      rw [hd] at h
      simp only [] at h
      cases hr : decode_rows w n s1 (data.drop w) with
      | err e => rw [hr] at h; simp at h
      | panicked => rw [hr] at h; simp at h
      | ok a2 =>
        obtain ⟨tail, s2'⟩ := a2
        rw [hr] at h
        simp only [Outcome.ok.injEq, Prod.mk.injEq] at h
        obtain ⟨h1, h2⟩ := h
        have hl := congrArg List.length h1
        have h3 := decrunch_length _ _ _ _ hd
        have h4 := ih _ _ _ _ hr
        simp only [List.length_append, List.length_take, List.length_drop] at hl h3 h4 ⊢
        omega

theorem decode_rows_ne_panicked (w : Nat) (rows : Nat) (hw : 0 < w) : ∀ s data,
    w * rows ≤ data.length → decode_rows w rows s data ≠ .panicked := by
  induction rows with
  | zero => intro s data _ h; simp [decode_rows] at h
  | succ n ih =>
    intro s data hlen h
    rw [decode_rows] at h
    cases hd : decrunch s (data.take w) with
    | err e => rw [hd] at h; simp at h
    | panicked =>
      have hw1 : w ≤ w * (n + 1) := Nat.le_mul_of_pos_right w (Nat.succ_pos n)
      refine decrunch_ne_panicked s (data.take w) ?_ hd
      intro hnil
      have hlen2 := congrArg List.length hnil
      simp only [List.length_take, List.length_nil] at hlen2
      omega
    | ok a =>
      obtain ⟨row, s1⟩ := a
      rw [hd] at h
      simp only [] at h
      cases hr : decode_rows w n s1 (data.drop w) with
      | err e => rw [hr] at h; simp at h
      | panicked =>
        refine ih s1 (data.drop w) ?_ hr
        simp only [List.length_drop]
        have : w * (n + 1) = w * n + w := by ring
        omega
      | ok a2 => rw [hr] at h; simp at h

/-! ## Claim C3: the old-format RLE marker step -/

/-- Claim C3, counterexample.  After eight consecutive RLE markers with
`e = 0` (each a legal zero-length run), `l_shift` has reached 64, and the
ninth marker makes `usize::checked_shl(1, 64)` fail, so the source returns
`Rle` — although the unbounded-width count `0 << 64 = 0` does not overflow
and does not exceed the remaining slots, so the claim's reading (rendered by
`old_decrunch_claimed` / `count_claimed`) continues decoding and instead hits
end-of-stream (`Eof`).  The stream is nine `(1,1,1,0)` marker pixels; the
window is two already-seeded pixels. -/
theorem claim_C3_counterexample :
    old_decrunch
        [1, 1, 1, 0, 1, 1, 1, 0, 1, 1, 1, 0, 1, 1, 1, 0, 1, 1, 1, 0,
         1, 1, 1, 0, 1, 1, 1, 0, 1, 1, 1, 0, 1, 1, 1, 0]
        0 [⟨0, 0, 0⟩, ⟨0, 0, 0⟩] = .error .rle
    ∧ old_decrunch_claimed
        [1, 1, 1, 0, 1, 1, 1, 0, 1, 1, 1, 0, 1, 1, 1, 0, 1, 1, 1, 0,
         1, 1, 1, 0, 1, 1, 1, 0, 1, 1, 1, 0, 1, 1, 1, 0]
        0 [⟨0, 0, 0⟩, ⟨0, 0, 0⟩] = .error .eof
    ∧ checked_count 0 64 = none
    ∧ count_claimed 0 64 = some 0 := by
  refine ⟨rfl, rfl, by decide, by decide⟩

/-- Claim C3 (amended).  Upon reading an RLE marker `(1,1,1,e)` the repeat
count is `e << l_shift`, guarded exactly as `usize::checked_shl(1, l_shift)`
followed by `checked_mul`: decoding fails with `Rle` when `l_shift ≥ 64`
(the shift-amount guard — even when `e = 0`, where the unbounded value would
not overflow) or when `e·2^l_shift ≥ 2^64`, or when the count exceeds the
number of remaining slots minus one; otherwise the previous already-decoded
pixel is replicated into the next `count` slots, the cursor advances by
`count`, and `l_shift` increases by 8.  A non-marker pixel is converted into
the next slot and resets `l_shift` to 0.  A successful decode never changes
the scanline's length (no write past the scanline). -/
theorem claim_C3_amended :
    (∀ e lshift, checked_count e lshift =
      if lshift < 64 ∧ e * 2 ^ lshift < 2 ^ 64 then some (e * 2 ^ lshift) else none)
    ∧ (∀ (e : Nat) lshift s1 (p0 p1 : RGB) rest,
        old_decrunch (1 :: 1 :: 1 :: e :: s1) lshift (p0 :: p1 :: rest) =
          match checked_count (e % 256) lshift with
          | none => .error .rle
          | some count =>
            if count ≤ (p1 :: rest).length then
              match old_decrunch s1 (lshift + 8) (p0 :: (p1 :: rest).drop count) with
              | .ok (tail, s2) => .ok (List.replicate count p0 ++ tail, s2)
              | .error err => .error err
            else .error .rle)
    ∧ (∀ r g b e lshift s1 (p0 p1 : RGB) rest,
        ¬(⟨r % 256, g % 256, b % 256, e % 256⟩ : RGBE).is_rle_marker →
        old_decrunch (r :: g :: b :: e :: s1) lshift (p0 :: p1 :: rest) =
          match old_decrunch s1 0 (RGB.ofRGBE ⟨r % 256, g % 256, b % 256, e % 256⟩ :: rest) with
          | .ok (tail, s2) => .ok (p0 :: tail, s2)
          | .error err => .error err)
    ∧ (∀ s lshift sc out s2, old_decrunch s lshift sc = .ok (out, s2) →
        out.length = sc.length) := by
  refine ⟨?_, ?_, ?_, fun s l sc out s2 h => old_decrunch_length s l sc out s2 h⟩
  · intro e lshift
    unfold checked_count
    by_cases h1 : lshift < 64 <;> by_cases h2 : e * 2 ^ lshift < 2 ^ 64 <;>
      simp [h1, h2]
  · intro e lshift s1 p0 p1 rest
    simp only [old_decrunch]
    rw [if_pos (show (⟨1 % 256, 1 % 256, 1 % 256, e % 256⟩ : RGBE).is_rle_marker from
      ⟨rfl, rfl, rfl⟩)]
  · intro r g b e lshift s1 p0 p1 rest hm
    simp only [old_decrunch]
    rw [if_neg hm]

/-- Claim C3, witness: the amended theorem at the concrete non-marker pixel
`(5,5,5,128)` in a two-slot window. -/
theorem claim_C3_witness :
    old_decrunch [5, 5, 5, 128] 0 [⟨0, 0, 0⟩, ⟨0, 0, 0⟩] =
      (match old_decrunch [] 0 [RGB.ofRGBE ⟨5, 5, 5, 128⟩] with
       | .ok (tail, s2) => .ok ((⟨0, 0, 0⟩ : RGB) :: tail, s2)
       | .error err => .error err) :=
  claim_C3_amended.2.2.1 5 5 5 128 0 [] ⟨0, 0, 0⟩ ⟨0, 0, 0⟩ [] (by decide)

/-! ## Claim C4: new-format run/literal bounds -/

/-- Claim C4, counterexample.  A literal (non-run) control byte may request a
count exceeding the pixels still unfilled and yet fail with `Eof`, not `Rle`:
with 8 pixels unfilled, literal count 9 followed by exactly 8 data bytes
copies 8 bytes (filling the row) and then reaches end-of-stream while a byte
is still owed.  The same happens inside a full new-format scanline decode
(marker `(2,2,0,0)` prepended, width 8). -/
theorem claim_C4_counterexample :
    decrunch_channel (fun (p : RGB) v => { p with r := (v : ℚ) }) 0
        [9, 1, 2, 3, 4, 5, 6, 7, 8] (List.replicate 8 ⟨0, 0, 0⟩) = .error .eof
    ∧ decrunch [2, 2, 0, 0, 9, 1, 2, 3, 4, 5, 6, 7, 8]
        (List.replicate 8 ⟨0, 0, 0⟩) = .err .eof
    ∧ LoadError.eof ≠ LoadError.rle :=
  ⟨rfl, rfl, by decide⟩

/-- Claim C4 (amended): in every new-format plane pass, a run control byte
`c > 128` requests `count = c & 0x7f` broadcast writes of one data byte, and
a literal control byte `c ∈ 0..=128` requests `c` one-to-one byte copies.  A
run whose count exceeds the pixels still unfilled fails with `Rle` (checked
before the data byte is read); an over-length literal fails with `Rle` at the
first excess byte while the stream still delivers bytes, but with `Eof` if
the stream ends first.  In no case is a pixel past the end of the row
written: a successful pass returns exactly as many pixels as it was given. -/
theorem claim_C4_amended :
    (∀ {α : Type} (m : α → Nat → α) c s (p : α) ps, 128 < c % 256 →
      (p :: ps).length < c % 256 % 128 →
      decrunch_channel m 0 (c :: s) (p :: ps) = .error .rle)
    ∧ (∀ {α : Type} (m : α → Nat → α) c v s (p : α) ps, 128 < c % 256 →
        c % 256 % 128 ≤ (p :: ps).length →
        decrunch_channel m 0 (c :: v :: s) (p :: ps) =
          match decrunch_channel m 0 s ((p :: ps).drop (c % 256 % 128)) with
          | .ok (tail, s3) =>
            .ok (((p :: ps).take (c % 256 % 128)).map
                  (fun q => m q (v % 256)) ++ tail, s3)
          | .error err => .error err)
    ∧ (∀ {α : Type} (m : α → Nat → α) c s (p : α) ps, ¬128 < c % 256 →
        decrunch_channel m 0 (c :: s) (p :: ps) =
          decrunch_channel m (c % 256) s (p :: ps))
    ∧ (∀ {α : Type} (m : α → Nat → α) bl v s,
        decrunch_channel m (bl + 1) (v :: s) ([] : List α) = .error .rle)
    ∧ (∀ {α : Type} (m : α → Nat → α) bl (sc : List α),
        decrunch_channel m (bl + 1) [] sc = .error .eof)
    ∧ (∀ {α : Type} (m : α → Nat → α) bl s sc out s2,
        decrunch_channel m bl s sc = .ok (out, s2) → out.length = sc.length) := by
  refine ⟨?_, ?_, ?_, fun m bl v s => rfl, fun m bl sc => rfl,
    fun m bl s sc out s2 h => decrunch_channel_length m bl s sc out s2 h⟩
  · intro α m c s p ps hc hover
    rw [decrunch_channel.eq_def]
    dsimp only []
    rw [if_pos hc, if_neg (by omega)]
  · intro α m c v s p ps hc hcount
    rw [decrunch_channel.eq_def]
    dsimp only []
    rw [if_pos hc, if_pos hcount]
  · intro α m c s p ps hc
    rw [decrunch_channel.eq_def]
    dsimp only []
    rw [if_neg hc]

/-- Claim C4, witness: the amended theorem at concrete inputs — an oversized
run (`Rle`), a one-pixel run broadcast, a zero-length literal, a literal
write attempt into a full row (`Rle`), a literal starved of input (`Eof`),
and length preservation of a successful pass. -/
theorem claim_C4_witness :
    decrunch_channel (fun (p : RGB) v => { p with r := (v : ℚ) }) 0 [130]
        [⟨0, 0, 0⟩] = .error .rle
    ∧ decrunch_channel (fun (p : RGB) v => { p with r := (v : ℚ) }) 0 [129, 7]
        [⟨0, 0, 0⟩] = .ok ([⟨((7 : Nat) : ℚ), 0, 0⟩], [])
    ∧ decrunch_channel (fun (p : RGB) v => { p with r := (v : ℚ) }) 0 [0]
        [⟨0, 0, 0⟩] = .error .eof
    ∧ decrunch_channel (fun (p : RGB) v => { p with r := (v : ℚ) }) 1 [5]
        ([] : List RGB) = .error .rle
    ∧ decrunch_channel (fun (p : RGB) v => { p with r := (v : ℚ) }) 1 []
        [(⟨0, 0, 0⟩ : RGB)] = .error .eof
    ∧ ([(⟨((7 : Nat) : ℚ), 0, 0⟩ : RGB)]).length = [(⟨0, 0, 0⟩ : RGB)].length :=
  ⟨claim_C4_amended.1 _ 130 [] _ [] (by decide) (by decide),
   claim_C4_amended.2.1 _ 129 7 [] _ [] (by decide) (by decide),
   claim_C4_amended.2.2.1 _ 0 [] _ [] (by decide),
   claim_C4_amended.2.2.2.1 _ 0 5 [],
   claim_C4_amended.2.2.2.2.1 _ 0 _,
   claim_C4_amended.2.2.2.2.2 (fun (p : RGB) v => { p with r := (v : ℚ) }) 0
     [129, 7] [⟨0, 0, 0⟩] _ _ rfl⟩

/-! ## Claim C2: the per-scanline dispatcher -/

/-- Claim C2: the dispatcher reads exactly one RawPixel (failing with `Eof`
when fewer than 4 bytes remain) and selects the new-format path iff
`8 ≤ width ≤ 0x7fff` and the pixel is the new-format marker; in that case the
marker is consumed and not stored and the four passes run on the remaining
stream; otherwise the pixel's converted value lands in slot 0 and the
old-format decoder fills the rest.  The decision is remade for every row:
`decode_rows` re-runs the full `decrunch` sniff on each row's slice, with
nothing carried over but the stream position. -/
theorem claim_C2 :
    (∀ r g b e s1 (sc : List RGB),
      8 ≤ sc.length → sc.length ≤ 0x7fff →
      (⟨r % 256, g % 256, b % 256, e % 256⟩ : RGBE).is_new_decrunch_marker →
      decrunch (r :: g :: b :: e :: s1) sc = liftE (new_decrunch s1 sc))
    ∧ (∀ r g b e s1 (p0 : RGB) rest,
        ¬(8 ≤ (p0 :: rest).length ∧ (p0 :: rest).length ≤ 0x7fff ∧
          (⟨r % 256, g % 256, b % 256, e % 256⟩ : RGBE).is_new_decrunch_marker) →
        decrunch (r :: g :: b :: e :: s1) (p0 :: rest) =
          liftE (old_decrunch s1 0
            (RGB.ofRGBE ⟨r % 256, g % 256, b % 256, e % 256⟩ :: rest)))
    ∧ (∀ s (sc : List RGB), s.length < 4 → decrunch s sc = .err .eof)
    ∧ (∀ w n s data, decode_rows w (n + 1) s data =
        match decrunch s (data.take w) with
        | .ok (row, s1) =>
          match decode_rows w n s1 (data.drop w) with
          | .ok (tail, s2) => .ok (row ++ tail, s2)
          | .err e => .err e
          | .panicked => .panicked
        | .err e => .err e
        | .panicked => .panicked) := by
  refine ⟨?_, ?_, ?_, fun w n s data => rfl⟩
  · intro r g b e s1 sc h8 h15 hm
    rw [decrunch.eq_def]
    dsimp only []
    rw [if_neg (by push_neg; exact ⟨⟨h8, h15⟩, hm⟩)]
  · intro r g b e s1 p0 rest hnot
    rw [decrunch.eq_def]
    dsimp only []
    rw [if_pos (by tauto)]
  · intro s sc hlen
    rcases s with _ | ⟨a, _ | ⟨b2, _ | ⟨c2, _ | ⟨d2, t⟩⟩⟩⟩
    · rfl
    · rfl
    · rfl
    · rfl
    · simp at hlen; omega

/-- Claim C2, witness: a marker-led row of width 8 dispatches to the
new-format passes; the same marker bytes on a row of width 1 (below the
minimum of 8) are treated as an ordinary old-format first pixel; a 3-byte
stream cannot supply the dispatcher's RawPixel; and the row loop re-runs the
dispatcher per row. -/
theorem claim_C2_witness :
    decrunch [2, 2, 0, 0] (List.replicate 8 ⟨0, 0, 0⟩) =
      liftE (new_decrunch [] (List.replicate 8 ⟨0, 0, 0⟩))
    ∧ decrunch [2, 2, 0, 0] [⟨0, 0, 0⟩] =
      liftE (old_decrunch [] 0 [RGB.ofRGBE ⟨2, 2, 0, 0⟩])
    ∧ decrunch [9, 9, 9] [⟨0, 0, 0⟩] = .err .eof
    ∧ decode_rows 1 1 [9, 9, 9] [⟨0, 0, 0⟩] =
        match decrunch [9, 9, 9] [(⟨0, 0, 0⟩ : RGB)] with
        | .ok (row, s1) =>
          match decode_rows 1 0 s1 [] with
          | .ok (tail, s2) => .ok (row ++ tail, s2)
          | .err e => .err e
          | .panicked => .panicked
        | .err e => .err e
        | .panicked => .panicked :=
  ⟨claim_C2.1 2 2 0 0 [] (List.replicate 8 ⟨0, 0, 0⟩) (by decide) (by decide)
      (by decide),
   claim_C2.2.1 2 2 0 0 [] ⟨0, 0, 0⟩ [] (by decide),
   claim_C2.2.2.1 [9, 9, 9] [⟨0, 0, 0⟩] (by decide),
   claim_C2.2.2.2 1 0 [9, 9, 9] [⟨0, 0, 0⟩]⟩

/-! ## Claims about `load` and `Image` -/

theorem load_scanlines_ok (w h : Nat) (s : List Nat) (img : Image) :
    load_scanlines w h s = .ok img →
    img.width = w ∧ img.height = h ∧ img.data.length = w * h := by
  intro hl
  unfold load_scanlines at hl
  dsimp only [] at hl
  split at hl
  · cases hd : decode_rows w h s (List.replicate (w * h) ⟨0, 0, 0⟩) with
    | err e => rw [hd] at hl; simp at hl
    | panicked => rw [hd] at hl; simp at hl
    | ok a =>
      obtain ⟨data2, s2⟩ := a
      rw [hd] at hl
      simp only [Outcome.ok.injEq] at hl
      have hlen := decode_rows_length w h s _ _ _ hd
      simp only [List.length_replicate] at hlen
      rw [← hl]
      exact ⟨rfl, rfl, hlen⟩
  · simp only [Outcome.ok.injEq] at hl
    rw [← hl]
    exact ⟨rfl, rfl, by simp⟩

theorem load_scanlines_ne_panicked (w h : Nat) (s : List Nat) :
    load_scanlines w h s ≠ .panicked := by
  unfold load_scanlines
  dsimp only []
  split
  · intro hp
    cases hd : decode_rows w h s (List.replicate (w * h) ⟨0, 0, 0⟩) with
    | ok a => rw [hd] at hp; obtain ⟨d2, s2⟩ := a; simp at hp
    | err e => rw [hd] at hp; simp at hp
    | panicked =>
      have hw : 0 < w := by
        rcases Nat.eq_zero_or_pos w with h0 | h0
        · rename_i hpos; rw [h0] at hpos; simp at hpos
        · exact h0
      exact decode_rows_ne_panicked w h hw s _ (by simp) hd
  · simp

theorem load_ne_panicked (ph : ParseHeader) (stream : List Nat) :
    load ph stream ≠ .panicked := by
  unfold load
  split
  · simp
  · split
    · simp
    · cases hph : ph (stream.drop 10) with
      | error e => simp
      | ok whr =>
        obtain ⟨w, h, rest⟩ := whr
        dsimp only []
        split
        · exact load_scanlines_ne_panicked w h rest
        · simp

/-- Claim C9: `Image::pixel` does no per-axis bounds check — it panics
exactly when the linear offset `width*y + x` reaches `width*height` (for an
image satisfying the length invariant), and an out-of-range `x` whose linear
offset is still in range silently yields the pixel at that offset, i.e. a
pixel of a later row: `pixel x y = pixel (x - width) (y + 1)`. -/
theorem claim_C9 (img : Image) (hlen : img.data.length = img.width * img.height)
    (x y : Nat) :
    (img.pixel x y = none ↔ img.width * img.height ≤ img.width * y + x)
    ∧ (img.width ≤ x → img.width * y + x < img.width * img.height →
        img.pixel x y = img.pixel (x - img.width) (y + 1)) := by
  constructor
  · rw [Image.pixel, Image.pixel_offset, List.get?_eq_none, hlen]
  · intro hx hofs
    rw [Image.pixel, Image.pixel, Image.pixel_offset, Image.pixel_offset]
    congr 1
    have hmul : img.width * (y + 1) = img.width * y + img.width := by ring
    omega

/-- Claim C9, witness: in a 2×2 image, the out-of-range coordinate
`(x, y) = (3, 0)` (offset 3 < 4) silently yields the same pixel as
`(1, 1)`, and `(x, y) = (2, 1)` (offset 4) panics. -/
theorem claim_C9_witness :
    ((Image.mk 2 2 [⟨0, 0, 0⟩, ⟨1, 0, 0⟩, ⟨2, 0, 0⟩, ⟨3, 0, 0⟩]).pixel 3 0 =
      (Image.mk 2 2 [⟨0, 0, 0⟩, ⟨1, 0, 0⟩, ⟨2, 0, 0⟩, ⟨3, 0, 0⟩]).pixel 1 1)
    ∧ ((Image.mk 2 2 [⟨0, 0, 0⟩, ⟨1, 0, 0⟩, ⟨2, 0, 0⟩, ⟨3, 0, 0⟩]).pixel 2 1 =
        none ↔ 2 * 2 ≤ 2 * 1 + 2) :=
  ⟨(claim_C9 (Image.mk 2 2 [⟨0, 0, 0⟩, ⟨1, 0, 0⟩, ⟨2, 0, 0⟩, ⟨3, 0, 0⟩]) (by decide)
      3 0).2 (by decide) (by decide),
   (claim_C9 (Image.mk 2 2 [⟨0, 0, 0⟩, ⟨1, 0, 0⟩, ⟨2, 0, 0⟩, ⟨3, 0, 0⟩]) (by decide)
      2 1).1⟩

/-- Claim C5: `load` validates `width * height` against the 64-bit `usize`
before allocating: whenever the header parser reports dimensions whose
product does not fit (e.g. `width = usize::MAX`, `height = 2`), `load`
returns `FileFormat` — it neither panics nor reaches the allocation or any
scanline work. -/
theorem claim_C5 (ph : ParseHeader) (stream : List Nat) (w h : Nat)
    (rest : List Nat) (h10 : ¬stream.length < 10)
    (hmagic : (stream.take 10).map (· % 256) = MAGIC)
    (hph : ph (stream.drop 10) = .ok (w, h, rest)) (hov : 2 ^ 64 ≤ w * h) :
    load ph stream = .err .fileFormat := by
  unfold load
  rw [if_neg h10, if_neg (fun hne => hne hmagic), hph]
  dsimp only []
  rw [if_neg (by omega)]

/-- Claim C5, witness: a stream that is exactly the magic followed by a
header reporting `width = 2^64 - 1` (usize::MAX), `height = 2`. -/
theorem claim_C5_witness :
    load (ph_const (2 ^ 64 - 1) 2) MAGIC = .err .fileFormat :=
  claim_C5 (ph_const (2 ^ 64 - 1) 2) MAGIC (2 ^ 64 - 1) 2 [] (by decide)
    (by decide) rfl (by norm_num)

/-- Claim C8: every successful `load` returns an Image with
`data.len() == width * height`, pixels addressed row-major
(`pixel x y` reads linear offset `width*y + x`); on any error no Image value
is produced at all — the result is a bare error value, and the pipeline never
panics, so no partial or streaming image can escape. -/
theorem claim_C8 :
    (∀ ph stream img, load ph stream = .ok img →
      img.data.length = img.width * img.height
      ∧ ∀ x y, img.pixel x y = img.data.get? (img.width * y + x))
    ∧ (∀ ph stream, load ph stream ≠ .panicked) := by
  refine ⟨?_, load_ne_panicked⟩
  intro ph stream img h
  unfold load at h
  split at h
  · simp at h
  · split at h
    · simp at h
    · cases hph : ph (stream.drop 10) with
      | error e => rw [hph] at h; simp at h
      | ok whr =>
        obtain ⟨w, hh, rest⟩ := whr
        rw [hph] at h
        dsimp only [] at h
        split at h
        · obtain ⟨h1, h2, h3⟩ := load_scanlines_ok w hh rest img h
          exact ⟨by rw [h1, h2, h3], fun x y => rfl⟩
        · simp at h

/-- Claim C8, witness: a 1×1 image decoded through the old-format path from
the magic plus a single raw pixel `(5,5,5,128)`. -/
theorem claim_C8_witness :
    (Image.mk 1 1 [RGB.ofRGBE ⟨5, 5, 5, 128⟩]).data.length = 1 * 1
    ∧ ∀ x y, (Image.mk 1 1 [RGB.ofRGBE ⟨5, 5, 5, 128⟩]).pixel x y =
        (Image.mk 1 1 [RGB.ofRGBE ⟨5, 5, 5, 128⟩]).data.get? (1 * y + x) :=
  claim_C8.1 (ph_const 1 1) (MAGIC ++ [5, 5, 5, 128])
    (Image.mk 1 1 [RGB.ofRGBE ⟨5, 5, 5, 128⟩]) (by rfl)

/-- Claim C6: every required read that reaches end of stream yields `Eof`,
never a panic and never a short image: the 10 magic bytes, the dispatcher's
4-byte RawPixel, the old decoder's 4-byte RawPixel, a new-format control
byte, a run's data byte, and any byte of a literal run; and `load` as a
whole can never panic. -/
theorem claim_C6 :
    (∀ ph (s : List Nat), s.length < 10 → load ph s = .err .eof)
    ∧ (∀ (s : List Nat) (sc : List RGB), s.length < 4 → decrunch s sc = .err .eof)
    ∧ (∀ (s : List Nat) l (p0 p1 : RGB) rest, s.length < 4 →
        old_decrunch s l (p0 :: p1 :: rest) = .error .eof)
    ∧ (∀ {α : Type} (m : α → Nat → α) (p : α) ps,
        decrunch_channel m 0 [] (p :: ps) = .error .eof)
    ∧ (∀ {α : Type} (m : α → Nat → α) c (p : α) ps, 128 < c % 256 →
        c % 256 % 128 ≤ (p :: ps).length →
        decrunch_channel m 0 [c] (p :: ps) = .error .eof)
    ∧ (∀ {α : Type} (m : α → Nat → α) bl (sc : List α),
        decrunch_channel m (bl + 1) [] sc = .error .eof)
    ∧ (∀ ph stream, load ph stream ≠ .panicked) := by
  refine ⟨?_, ?_, ?_, fun m p ps => rfl, ?_, fun m bl sc => rfl, load_ne_panicked⟩
  · intro ph s hlen
    unfold load
    rw [if_pos hlen]
  · intro s sc hlen
    rcases s with _ | ⟨a, _ | ⟨b2, _ | ⟨c2, _ | ⟨d2, t⟩⟩⟩⟩
    · rfl
    · rfl
    · rfl
    · rfl
    · simp at hlen; omega
  · intro s l p0 p1 rest hlen
    rcases s with _ | ⟨a, _ | ⟨b2, _ | ⟨c2, _ | ⟨d2, t⟩⟩⟩⟩
    · rfl
    · rfl
    · rfl
    · rfl
    · simp at hlen; omega
  · intro α m c p ps hc hcount
    rw [decrunch_channel.eq_def]
    dsimp only []
    rw [if_pos hc, if_pos hcount]

/-- Claim C6, witness: each truncation site at a concrete input — a 1-byte
stream for the magic, 2 bytes for a RawPixel (dispatcher and old decoder), an
empty stream at a control byte, a lone run control byte missing its data
byte, an exhausted stream mid-literal, and no panic on an empty stream. -/
theorem claim_C6_witness :
    load (ph_const 1 1) [35] = .err .eof
    ∧ decrunch [1, 2] [⟨0, 0, 0⟩] = .err .eof
    ∧ old_decrunch [1, 2] 0 [⟨0, 0, 0⟩, ⟨0, 0, 0⟩] = .error .eof
    ∧ decrunch_channel (fun (p : RGB) v => { p with r := (v : ℚ) }) 0 []
        [⟨0, 0, 0⟩] = .error .eof
    ∧ decrunch_channel (fun (p : RGB) v => { p with r := (v : ℚ) }) 0 [129]
        [⟨0, 0, 0⟩] = .error .eof
    ∧ decrunch_channel (fun (p : RGB) v => { p with r := (v : ℚ) }) 3 []
        [⟨0, 0, 0⟩] = .error .eof
    ∧ load (ph_const 0 0) [] ≠ .panicked :=
  ⟨claim_C6.1 (ph_const 1 1) [35] (by decide),
   claim_C6.2.1 [1, 2] [⟨0, 0, 0⟩] (by decide),
   claim_C6.2.2.1 [1, 2] 0 ⟨0, 0, 0⟩ ⟨0, 0, 0⟩ [] (by decide),
   claim_C6.2.2.2.1 _ _ [],
   claim_C6.2.2.2.2.1 _ 129 _ [] (by decide) (by decide),
   claim_C6.2.2.2.2.2.1 _ 2 _,
   claim_C6.2.2.2.2.2.2 (ph_const 0 0) []⟩

/-! ## Claim C10: the marker's dead bits -/

theorem decrunch_marker (r g b e : Nat) (s1 : List Nat) (sc : List RGB)
    (h8 : 8 ≤ sc.length) (h15 : sc.length ≤ 0x7fff)
    (hm : (⟨r % 256, g % 256, b % 256, e % 256⟩ : RGBE).is_new_decrunch_marker) :
    decrunch (r :: g :: b :: e :: s1) sc = liftE (new_decrunch s1 sc) := by
  rw [decrunch.eq_def]
  dsimp only []
  rw [if_neg (by push_neg; exact ⟨⟨h8, h15⟩, hm⟩)]

/-- Claim C10: the low 7 bits of a leading new-format marker's third byte and
its entire fourth byte are never used.  For any scanline of width
`8..=0x7fff`, two streams identical except in those bits of the leading
marker pixel decode identically (same pixels, same errors, same stream
position), both at the dispatcher level and through the whole row loop of
`load` — in particular the marker's `e` field is never validated against the
scanline width. -/
theorem claim_C10 :
    (∀ (sc : List RGB) b e b' e' rest, 8 ≤ sc.length → sc.length ≤ 0x7fff →
      b % 256 < 128 → b' % 256 < 128 →
      decrunch (2 :: 2 :: b :: e :: rest) sc =
        decrunch (2 :: 2 :: b' :: e' :: rest) sc)
    ∧ (∀ w h b e b' e' rest, 8 ≤ w → w ≤ 0x7fff →
        b % 256 < 128 → b' % 256 < 128 →
        load_scanlines w h (2 :: 2 :: b :: e :: rest) =
          load_scanlines w h (2 :: 2 :: b' :: e' :: rest)) := by
  constructor
  · intro sc b e b' e' rest h8 h15 hb hb'
    rw [decrunch_marker 2 2 b e rest sc h8 h15 ⟨rfl, rfl, hb⟩,
        decrunch_marker 2 2 b' e' rest sc h8 h15 ⟨rfl, rfl, hb'⟩]
  · intro w h b e b' e' rest h8 h15 hb hb'
    unfold load_scanlines
    dsimp only []
    split
    · rename_i hpos
      cases h with
      | zero => rw [Nat.mul_zero] at hpos; simp at hpos
      | succ hh2 =>
        rw [decode_rows, decode_rows]
        have hsclen :
            (List.take w (List.replicate (w * (hh2 + 1)) (⟨0, 0, 0⟩ : RGB))).length = w := by
          rw [List.length_take, List.length_replicate]
          exact Nat.min_eq_left (Nat.le_mul_of_pos_right w (Nat.succ_pos hh2))
        rw [decrunch_marker 2 2 b e rest _ (by rw [hsclen]; exact h8)
              (by rw [hsclen]; exact h15) ⟨rfl, rfl, hb⟩,
            decrunch_marker 2 2 b' e' rest _ (by rw [hsclen]; exact h8)
              (by rw [hsclen]; exact h15) ⟨rfl, rfl, hb'⟩]
    · rfl

/-- Claim C10, witness: flipping the marker's third byte from 0 to 5 and its
fourth byte from 7 to 9 changes nothing, for a width-8 scanline and for a
width-8, height-1 image body. -/
theorem claim_C10_witness :
    decrunch [2, 2, 0, 7] (List.replicate 8 ⟨0, 0, 0⟩) =
      decrunch [2, 2, 5, 9] (List.replicate 8 ⟨0, 0, 0⟩)
    ∧ load_scanlines 8 1 [2, 2, 0, 7] = load_scanlines 8 1 [2, 2, 5, 9] :=
  ⟨claim_C10.1 (List.replicate 8 ⟨0, 0, 0⟩) 0 7 5 9 [] (by decide) (by decide)
      (by decide) (by decide),
   claim_C10.2 8 1 0 7 5 9 [] (by decide) (by decide) (by decide) (by decide)⟩

/-! ## Claim C1: the new-format decode equals the spec's raw-planes-then-convert pipeline -/

theorem forall₂_append_rel {α β : Type} {R : α → β → Prop} :
    ∀ {a1 : List α} {b1 : List β} {a2 : List α} {b2 : List β},
      List.Forall₂ R a1 b1 → List.Forall₂ R a2 b2 →
      List.Forall₂ R (a1 ++ a2) (b1 ++ b2) := by
  intro a1 b1 a2 b2 h1 h2
  induction h1 with
  | nil => simpa using h2
  | cons h _ ih => exact List.Forall₂.cons h ih

theorem forall₂_map_map {α β α2 β2 : Type} {R : α → β → Prop} {S : α2 → β2 → Prop}
    {f : α → α2} {g : β → β2} (h : ∀ a b, R a b → S (f a) (g b)) :
    ∀ {l1 l2}, List.Forall₂ R l1 l2 → List.Forall₂ S (l1.map f) (l2.map g) := by
  intro l1 l2 hR
  induction hR with
  | nil => exact List.Forall₂.nil
  | cons h1 _ ih => exact List.Forall₂.cons (h _ _ h1) ih

theorem forall₂_true_of_length {α β : Type} :
    ∀ (l1 : List α) (l2 : List β), l1.length = l2.length →
      List.Forall₂ (fun _ _ => True) l1 l2
  | [], [], _ => .nil
  | _ :: l1, _ :: l2, h =>
    .cons trivial (forall₂_true_of_length l1 l2 (by simpa using h))

theorem forall₂_eq_map {α β : Type} {f : β → α} :
    ∀ {l1 : List α} {l2 : List β}, List.Forall₂ (fun a b => a = f b) l1 l2 →
      l1 = l2.map f := by
  intro l1 l2 h
  induction h with
  | nil => rfl
  | cons h1 _ ih => simp [h1, ih]

/-- Lockstep simulation of one channel pass at two pixel types: if the
per-pixel mutations turn `R`-related pixels into `S`-related ones, then the
passes over `R`-related scanlines consume the same bytes and either fail
identically or produce `S`-related scanlines. -/
theorem decrunch_channel_rel {α β : Type} (R S : α → β → Prop)
    (mα : α → Nat → α) (mβ : β → Nat → β)
    (hm : ∀ a b v, R a b → S (mα a v) (mβ b v)) :
    ∀ (bl : Nat) (s : List Nat) (la : List α) (lb : List β),
      List.Forall₂ R la lb →
      ExceptRel S (decrunch_channel mα bl s la) (decrunch_channel mβ bl s lb) := by
  intro bl s la
  induction bl, s, la using decrunch_channel.induct mα with
  | case1 bl sc =>
    intro lb hR
    exact rfl
  | case2 bl v s1 =>
    intro lb hR
    cases hR
    exact rfl
  | case3 bl v s1 p ps tail s2' heq ih =>
    intro lb hR
    cases hR with
    | cons hpq hR' =>
      rename_i q qs
      have Hrec := ih qs hR'
      rw [decrunch_channel.eq_def mβ, decrunch_channel.eq_def mα]
      dsimp only []
      rw [heq] at Hrec ⊢
      cases hB : decrunch_channel mβ bl s1 qs with
      | error e2 =>
        rw [hB] at Hrec
        exact Hrec.elim
      | ok b2 =>
        obtain ⟨tail2, s22⟩ := b2
        rw [hB] at Hrec
        obtain ⟨hf, hs⟩ := Hrec
        subst hs
        exact ⟨List.Forall₂.cons (hm p q (v % 256) hpq) hf, rfl⟩
  | case4 bl v s1 p ps err heq ih =>
    intro lb hR
    cases hR with
    | cons hpq hR' =>
      rename_i q qs
      have Hrec := ih qs hR'
      rw [decrunch_channel.eq_def mβ, decrunch_channel.eq_def mα]
      dsimp only []
      rw [heq] at Hrec ⊢
      cases hB : decrunch_channel mβ bl s1 qs with
      | error e2 =>
        rw [hB] at Hrec
        exact Hrec
      | ok b2 =>
        rw [hB] at Hrec
        exact Hrec.elim
  | case5 s =>
    intro lb hR
    cases hR
    rw [decrunch_channel.eq_def mβ, decrunch_channel.eq_def mα]
    dsimp only []
    exact ⟨List.Forall₂.nil, rfl⟩
  | case6 p ps =>
    intro lb hR
    cases hR with
    | cons hpq hR' => exact rfl
  | case7 p ps v hc hcount =>
    intro lb hR
    cases hR with
    | cons hpq hR' =>
      rename_i q qs
      have hlen := hR'.length_eq
      rw [decrunch_channel.eq_def mβ, decrunch_channel.eq_def mα]
      dsimp only []
      rw [if_pos hc, if_pos hcount, if_pos hc,
        if_pos (show v % 256 % 128 ≤ (q :: qs).length by
          simp only [List.length_cons] at hcount ⊢; omega)]
      exact rfl
  | case8 p ps v hc hcount v1 s1 tail s2' heq ih =>
    intro lb hR
    cases hR with
    | cons hpq hR' =>
      rename_i q qs
      have hlen := hR'.length_eq
      have hRfull : List.Forall₂ R (p :: ps) (q :: qs) := List.Forall₂.cons hpq hR'
      have Hrec := ih _ (List.forall₂_drop (v % 256 % 128) hRfull)
      rw [decrunch_channel.eq_def mβ, decrunch_channel.eq_def mα]
      dsimp only []
      rw [if_pos hc, if_pos hcount, if_pos hc,
        if_pos (show v % 256 % 128 ≤ (q :: qs).length by
          simp only [List.length_cons] at hcount ⊢; omega)]
      rw [heq] at Hrec ⊢
      cases hB : decrunch_channel mβ 0 s1 (List.drop (v % 256 % 128) (q :: qs)) with
      | error e2 =>
        rw [hB] at Hrec
        exact Hrec.elim
      | ok b2 =>
        obtain ⟨tail2, s22⟩ := b2
        rw [hB] at Hrec
        obtain ⟨hf, hs⟩ := Hrec
        subst hs
        refine ⟨forall₂_append_rel ?_ hf, rfl⟩
        exact forall₂_map_map (fun a b hab => hm a b (v1 % 256) hab)
          (List.forall₂_take (v % 256 % 128) hRfull)
  | case9 p ps v hc hcount v1 s1 err heq ih =>
    intro lb hR
    cases hR with
    | cons hpq hR' =>
      rename_i q qs
      have hlen := hR'.length_eq
      have hRfull : List.Forall₂ R (p :: ps) (q :: qs) := List.Forall₂.cons hpq hR'
      have Hrec := ih _ (List.forall₂_drop (v % 256 % 128) hRfull)
      rw [decrunch_channel.eq_def mβ, decrunch_channel.eq_def mα]
      dsimp only []
      rw [if_pos hc, if_pos hcount, if_pos hc,
        if_pos (show v % 256 % 128 ≤ (q :: qs).length by
          simp only [List.length_cons] at hcount ⊢; omega)]
      rw [heq] at Hrec ⊢
      cases hB : decrunch_channel mβ 0 s1 (List.drop (v % 256 % 128) (q :: qs)) with
      | error e2 =>
        rw [hB] at Hrec
        exact Hrec
      | ok b2 =>
        rw [hB] at Hrec
        exact Hrec.elim
  | case10 p ps v s1 hc hncount =>
    intro lb hR
    cases hR with
    | cons hpq hR' =>
      rename_i q qs
      have hlen := hR'.length_eq
      rw [decrunch_channel.eq_def mβ, decrunch_channel.eq_def mα]
      dsimp only []
      rw [if_pos hc, if_neg hncount, if_pos hc,
        if_neg (show ¬v % 256 % 128 ≤ (q :: qs).length by
          simp only [List.length_cons] at hncount ⊢; omega)]
      exact rfl
  | case11 p ps v s1 hc ih =>
    intro lb hR
    cases hR with
    | cons hpq hR' =>
      rename_i q qs
      rw [decrunch_channel.eq_def mβ, decrunch_channel.eq_def mα]
      dsimp only []
      rw [if_neg hc, if_neg hc]
      exact ih (q :: qs) (List.Forall₂.cons hpq hR')

/-- The four passes of the source (writing float planes, converting during
the exponent pass) run in lockstep with the four passes over raw byte planes:
same bytes consumed, same errors, and pointwise the source pixel is the
RGBE-to-float conversion of the accumulated raw bytes. -/
theorem new_decrunch_rel (s : List Nat) (sc : List RGB) (raw : List RGBE)
    (h0 : List.Forall₂ (fun _ _ => True) sc raw) :
    ExceptRel (fun p q => p = RGB.ofRGBE q) (new_decrunch s sc)
      (new_decrunch_raw s raw) := by
  unfold new_decrunch new_decrunch_raw
  have step1 : ∀ (a : RGB) (b : RGBE) (v : Nat), (fun _ _ => True) a b →
      (fun (p : RGB) (q : RGBE) => p.r = (q.r : ℚ))
        { a with r := (v : ℚ) } { b with r := v } := fun a b v _ => rfl
  have step2 : ∀ (a : RGB) (b : RGBE) (v : Nat),
      (fun (p : RGB) (q : RGBE) => p.r = (q.r : ℚ)) a b →
      (fun (p : RGB) (q : RGBE) => p.r = (q.r : ℚ) ∧ p.g = (q.g : ℚ))
        { a with g := (v : ℚ) } { b with g := v } := fun a b v h => ⟨h, rfl⟩
  have step3 : ∀ (a : RGB) (b : RGBE) (v : Nat),
      (fun (p : RGB) (q : RGBE) => p.r = (q.r : ℚ) ∧ p.g = (q.g : ℚ)) a b →
      (fun (p : RGB) (q : RGBE) =>
          p.r = (q.r : ℚ) ∧ p.g = (q.g : ℚ) ∧ p.b = (q.b : ℚ))
        { a with b := (v : ℚ) } { b with b := v } := fun a b v h => ⟨h.1, h.2, rfl⟩
  have step4 : ∀ (a : RGB) (b : RGBE) (v : Nat),
      (fun (p : RGB) (q : RGBE) =>
          p.r = (q.r : ℚ) ∧ p.g = (q.g : ℚ) ∧ p.b = (q.b : ℚ)) a b →
      (fun (p : RGB) (q : RGBE) => p = RGB.ofRGBE q)
        (a.apply_exposure v) { b with e := v } := by
    intro a b v h
    obtain ⟨h1, h2, h3⟩ := h
    have ha : a = ⟨(b.r : ℚ), (b.g : ℚ), (b.b : ℚ)⟩ := by
      cases a
      simp_all
    rw [ha]
    rfl
  have H1 := decrunch_channel_rel (fun _ _ => True)
    (fun (p : RGB) (q : RGBE) => p.r = (q.r : ℚ))
    (fun p v => { p with r := (v : ℚ) }) (fun q v => { q with r := v })
    step1 0 s sc raw h0
  cases hA1 : decrunch_channel (fun p v => { p with r := (v : ℚ) }) 0 s sc with
  | error e1 =>
    rw [hA1] at H1
    cases hB1 : decrunch_channel (fun q v => { q with r := v }) 0 s raw with
    | error e1' => rw [hB1] at H1; exact H1
    | ok b1 => rw [hB1] at H1; exact H1.elim
  | ok a1 =>
    obtain ⟨sc1, s1⟩ := a1
    rw [hA1] at H1
    cases hB1 : decrunch_channel (fun q v => { q with r := v }) 0 s raw with
    | error e1' => rw [hB1] at H1; exact H1.elim
    | ok b1 =>
      obtain ⟨raw1, t1⟩ := b1
      rw [hB1] at H1
      obtain ⟨hf1, hs1⟩ := H1
      subst hs1
      dsimp only []
      have H2 := decrunch_channel_rel
        (fun (p : RGB) (q : RGBE) => p.r = (q.r : ℚ))
        (fun (p : RGB) (q : RGBE) => p.r = (q.r : ℚ) ∧ p.g = (q.g : ℚ))
        (fun p v => { p with g := (v : ℚ) }) (fun q v => { q with g := v })
        step2 0 s1 sc1 raw1 hf1
      cases hA2 : decrunch_channel (fun p v => { p with g := (v : ℚ) }) 0 s1 sc1 with
      | error e2 =>
        rw [hA2] at H2
        cases hB2 : decrunch_channel (fun q v => { q with g := v }) 0 s1 raw1 with
        | error e2' => rw [hB2] at H2; exact (show e2 = e2' from H2)
        | ok b2 => rw [hB2] at H2; exact H2.elim
      | ok a2 =>
        obtain ⟨sc2, s2⟩ := a2
        rw [hA2] at H2
        cases hB2 : decrunch_channel (fun q v => { q with g := v }) 0 s1 raw1 with
        | error e2' => rw [hB2] at H2; exact H2.elim
        | ok b2 =>
          obtain ⟨raw2, t2⟩ := b2
          rw [hB2] at H2
          obtain ⟨hf2, hs2⟩ := H2
          subst hs2
          dsimp only []
          have H3 := decrunch_channel_rel
            (fun (p : RGB) (q : RGBE) => p.r = (q.r : ℚ) ∧ p.g = (q.g : ℚ))
            (fun (p : RGB) (q : RGBE) =>
              p.r = (q.r : ℚ) ∧ p.g = (q.g : ℚ) ∧ p.b = (q.b : ℚ))
            (fun p v => { p with b := (v : ℚ) }) (fun q v => { q with b := v })
            step3 0 s2 sc2 raw2 hf2
          cases hA3 : decrunch_channel (fun p v => { p with b := (v : ℚ) }) 0 s2 sc2 with
          | error e3 =>
            rw [hA3] at H3
            cases hB3 : decrunch_channel (fun q v => { q with b := v }) 0 s2 raw2 with
            | error e3' => rw [hB3] at H3; exact (show e3 = e3' from H3)
            | ok b3 => rw [hB3] at H3; exact H3.elim
          | ok a3 =>
            obtain ⟨sc3, s3⟩ := a3
            rw [hA3] at H3
            cases hB3 : decrunch_channel (fun q v => { q with b := v }) 0 s2 raw2 with
            | error e3' => rw [hB3] at H3; exact H3.elim
            | ok b3 =>
              obtain ⟨raw3, t3⟩ := b3
              rw [hB3] at H3
              obtain ⟨hf3, hs3⟩ := H3
              subst hs3
              dsimp only []
              exact decrunch_channel_rel
                (fun (p : RGB) (q : RGBE) =>
                  p.r = (q.r : ℚ) ∧ p.g = (q.g : ℚ) ∧ p.b = (q.b : ℚ))
                (fun (p : RGB) (q : RGBE) => p = RGB.ofRGBE q)
                (fun p v => p.apply_exposure v) (fun q v => { q with e := v })
                step4 0 s3 sc3 raw3 hf3

theorem new_decrunch_eq_spec (s : List Nat) (sc : List RGB) :
    new_decrunch s sc = new_decrunch_spec s sc.length := by
  have h0 := forall₂_true_of_length sc
    (List.replicate sc.length (⟨0, 0, 0, 0⟩ : RGBE)) (by simp)
  have H := new_decrunch_rel s sc _ h0
  unfold new_decrunch_spec
  cases hA : new_decrunch s sc with
  | error e =>
    rw [hA] at H
    cases hB : new_decrunch_raw s (List.replicate sc.length ⟨0, 0, 0, 0⟩) with
    | error e2 =>
      rw [hB] at H
      exact congrArg Except.error (show e = e2 from H)
    | ok b => rw [hB] at H; exact H.elim
  | ok a =>
    obtain ⟨out, s'⟩ := a
    rw [hA] at H
    cases hB : new_decrunch_raw s (List.replicate sc.length ⟨0, 0, 0, 0⟩) with
    | error e2 => rw [hB] at H; exact H.elim
    | ok b =>
      obtain ⟨qs, t⟩ := b
      rw [hB] at H
      obtain ⟨hf, hs⟩ := H
      subst hs
      rw [forall₂_eq_map hf]

/-- Claim C1: for every scanline of width `8..=0x7fff` whose stream begins
with the new-format marker, the decoder makes four sequential passes over the
entire scanline in the fixed order red, green, blue, exponent, and the result
equals the spec's two-stage pipeline: fill four raw byte planes (the fourth
pass storing raw exponent bytes) and, after all passes complete, apply the
§4.1 RGBE-to-float conversion once per pixel to its accumulated `(r,g,b,e)`
bytes — same pixels, same errors, same stream position. -/
theorem claim_C1 (sc : List RGB) (b e : Nat) (rest : List Nat)
    (h8 : 8 ≤ sc.length) (h15 : sc.length ≤ 0x7fff) (hb : b % 256 < 128) :
    decrunch (2 :: 2 :: b :: e :: rest) sc =
      liftE (new_decrunch_spec rest sc.length) := by
  rw [decrunch_marker 2 2 b e rest sc h8 h15 ⟨rfl, rfl, hb⟩, new_decrunch_eq_spec]

/-- Claim C1, witness: a width-8 marker-led scanline (the passes then fail
with `Eof` on the empty remainder, identically on both sides). -/
theorem claim_C1_witness :
    decrunch [2, 2, 0, 0] (List.replicate 8 ⟨0, 0, 0⟩) =
      liftE (new_decrunch_spec [] 8) :=
  claim_C1 (List.replicate 8 ⟨0, 0, 0⟩) 0 0 [] (by decide) (by decide) (by decide)

/-! ## Claim C7: the exposure arithmetic at (255,255,255,128) -/

theorem int_log2_eq {r : ℚ} {e : ℤ} (h0 : 0 < r) (h1 : (2 : ℚ) ^ e ≤ r)
    (h2 : r < (2 : ℚ) ^ (e + 1)) : Int.log 2 r = e := by
  refine le_antisymm ?_ ((Int.zpow_le_iff_le_log one_lt_two h0).1 (by push_cast; exact h1))
  have := (Int.lt_zpow_iff_log_lt one_lt_two h0).1 (by push_cast; exact h2)
  omega

/-- Evaluation rule for `f32round` in the normal range: once the binade
`2^e ≤ q < 2^(e+1)` is located, the rounding is `rnEven` on the 24-bit
significand grid. -/
theorem f32round_eval (q : ℚ) (e : ℤ) (hq : 0 < q) (h1 : (2 : ℚ) ^ e ≤ q)
    (h2 : q < (2 : ℚ) ^ (e + 1)) (he : ¬e < -126) :
    f32round q = (rnEven (q * 2 ^ (23 - e)) : ℚ) * 2 ^ (e - 23) := by
  unfold f32round
  rw [if_neg hq.ne']
  dsimp only []
  rw [abs_of_pos hq, int_log2_eq hq h1 h2, if_neg he, if_neg (not_lt.2 hq.le),
    one_mul, neg_sub]

theorem f32round_one_div_255 :
    f32round (1 / 255) = 8421505 * (2 : ℚ) ^ (-31 : ℤ) := by
  rw [f32round_eval (1 / 255 : ℚ) (-8) (by norm_num) (by norm_num) (by norm_num)
    (by norm_num)]
  have hfloor : ⌊(1 / 255 : ℚ) * 2 ^ (23 - (-8 : ℤ))⌋ = 8421504 := by
    rw [Int.floor_eq_iff]
    constructor
    · norm_num
    · norm_num
  unfold rnEven
  rw [hfloor]
  rw [if_neg (by push_cast; norm_num), if_pos (by push_cast; norm_num)]
  norm_num

theorem f32round_product_one :
    f32round ((255 : ℚ) * (8421505 * (2 : ℚ) ^ (-31 : ℤ))) = 1 := by
  rw [f32round_eval _ 0 (by norm_num) (by norm_num) (by norm_num) (by norm_num)]
  have hfloor : ⌊(255 : ℚ) * (8421505 * (2 : ℚ) ^ (-31 : ℤ)) * 2 ^ (23 - (0 : ℤ))⌋ =
      8388608 := by
    rw [Int.floor_eq_iff]
    constructor
    · norm_num
    · norm_num
  unfold rnEven
  rw [hfloor]
  rw [if_pos (by push_cast; norm_num)]
  norm_num

/-- Claim C7: converting RawPixel `(255,255,255,128)` yields exactly
`(1.0, 1.0, 1.0)` in 32-bit float arithmetic: the shared factor
`d = 2^(128-128)/255` is computed once as the `f32` rounding of `1/255`
(`8421505·2⁻³¹`), and `255 * d` rounds back to exactly `1.0` for each of the
three channels. -/
theorem claim_C7 : RGB.ofRGBE ⟨255, 255, 255, 128⟩ = ⟨1, 1, 1⟩ := by
  unfold RGB.ofRGBE RGB.apply_exposure
  dsimp only []
  have h128 : ((128 : Nat) : ℤ) - 128 = 0 := by norm_num
  rw [h128]
  have hpow : f32powi2 0 = 1 := by unfold f32powi2; norm_num
  rw [hpow]
  have hc : ((255 : Nat) : ℚ) = 255 := by norm_num
  rw [hc]
  have hd : f32div 1 255 = 8421505 * (2 : ℚ) ^ (-31 : ℤ) := by
    unfold f32div
    rw [show (1 : ℚ) / 255 = 1 / 255 from rfl]
    exact f32round_one_div_255
  rw [hd]
  have hm : f32mul 255 (8421505 * (2 : ℚ) ^ (-31 : ℤ)) = 1 := by
    unfold f32mul
    exact f32round_product_one
  rw [hm]
